import Mathlib

/-!
Verification of the blog-post pipeline repository.

The embedding works over `List Char` (named `Str` below), mirroring the
Python sources:

- `src/generation/blog_post_generator.py` : `CommentSummary`, `BlogPostGenerator`
  (`generate`, `_build_outline`, `_build_section`, `_build_subheading`,
  `_build_paragraph`, `_scatter_keywords`, `_keywords_for_section`);
- `src/orchestration/blog_pipeline.py` : `BlogPipeline` (`run`,
  `_analyze_comments`, `_generate_title`, `_derive_keywords`,
  `_tokenize_ko_simple`);
- `src/ingestion/html_parser.py` : the input validation of `parse_html`.

External collaborators (the network fetch plus BeautifulSoup extraction,
`CommentAnalyzer.summarize`, `TitleGenerator.generate`) are modelled as
function parameters, exactly as the pipeline treats them: opaque calls with
a fixed input/output contract.
-/

abbrev Str := List Char

/-- Convert a Lean string literal to a character list. -/
def str (s : String) : Str := s.toList

/-- Python `str.isspace` for the ASCII whitespace characters used by
`str.split()` and `str.strip()` with no arguments. -/
def isSpace (c : Char) : Bool :=
  c == ' ' || c == '\t' || c == '\n' || c == '\r' || c == '\x0b' || c == '\x0c'

/-- Python `s.strip()`: drop leading and trailing whitespace. -/
def strip (s : Str) : Str :=
  ((s.dropWhile isSpace).reverse.dropWhile isSpace).reverse

/-- Python `sep.join(parts)`. -/
def joinSep (sep : Str) : List Str → Str
  | [] => []
  | [x] => x
  | x :: xs => x ++ sep ++ joinSep sep xs

/-- Python truthiness followed by a fallback: `s or d` for an optional string. -/
def pyOr (s : Option Str) (d : Str) : Str :=
  match s with
  | none => d
  | some t => if t = [] then d else t

/-- Python `s or d` for a plain string. -/
def pyNonempty (s d : Str) : Str := if s = [] then d else s

/-- Accumulator-based splitter behind `wordsPy`; `cur` is the token read so far. -/
def wordsAux (cur : Str) : Str → List Str
  | [] => if cur = [] then [] else [cur]
  | c :: cs =>
    if isSpace c then
      (if cur = [] then wordsAux [] cs else cur :: wordsAux [] cs)
    else wordsAux (cur ++ [c]) cs

/-- Python `text.split()`: maximal runs of non-whitespace characters. -/
def wordsPy (l : Str) : List Str := wordsAux [] l

/-- The punctuation characters replaced by `_tokenize_ko_simple`
(`src/orchestration/blog_pipeline.py:185`). -/
def puncts : Str :=
  [',', '.', ':', ';', '!', '?', '(', ')', '[', ']', '\x7b', '\x7d', '\"', '\x27']

/-- One step of the replacement loop of `_tokenize_ko_simple`: each
punctuation character becomes a space. -/
def replacePunct (c : Char) : Char := if c ∈ puncts then ' ' else c

/-- `BlogPipeline._tokenize_ko_simple`: replace punctuation by spaces, then
split on whitespace, discarding empty tokens. -/
def tokenizeKoSimple (text : Str) : List Str := wordsPy (text.map replacePunct)

/-- `CommentSummary` of `src/generation/blog_post_generator.py`. -/
structure CommentSummary where
  highlights : List Str
  pain_points : List Str
  wishes : List Str
  tone : Option Str
deriving DecidableEq

/-- `BlogPostGenerator.section_order`. -/
def sectionOrder : List Str :=
  [str "서론", str "문제 제기", str "정보 제공", str "정리"]

/-- `BlogPostGenerator._scatter_keywords`. -/
def scatterKeywords (kps : Nat) (keywords : List Str) : Str :=
  if keywords = [] then str "핵심 키워드"
  else joinSep (str "와 ") (keywords.take kps)

/-- `BlogPostGenerator._keywords_for_section`: slice
`keywords[start:start+kps]`, falling back to `keywords[:kps]` when the slice
is empty. -/
def keywordsForSection (kps : Nat) (keywords : List Str) (sectionIndex : Nat) : List Str :=
  let start := sectionIndex * kps
  let chunk := (keywords.drop start).take kps
  if chunk = [] then keywords.take kps else chunk

/-- `BlogPostGenerator._build_outline`. -/
def buildOutline (title : Str) (keywords : List Str) : List Str :=
  let seoHint := if keywords = [] then str "핵심 포인트" else joinSep (str ", ") (keywords.take 3)
  [str "# " ++ title,
   str "- 주제 키워드: " ++ seoHint,
   str "- 구성: 서론 → 문제 제기 → 정보 제공 → 정리"]

/-- `BlogPostGenerator._build_subheading`. -/
def buildSubheading (sectionName : Str) (title : Str) (cs : CommentSummary) : Str :=
  let toneHint := pyOr cs.tone (str "독자 의견")
  if sectionName = str "서론" then title ++ str "를 살펴보기 위한 첫걸음"
  else if sectionName = str "문제 제기" then toneHint ++ str " 속에서 드러난 고민"
  else if sectionName = str "정보 제공" then str "핵심 정보와 적용 팁"
  else str "정리하며 살펴볼 핵심 포인트"

/-- `BlogPostGenerator._build_paragraph`. -/
def buildParagraph (kps : Nat) (sectionName : Str) (keywords : List Str)
    (cs : CommentSummary) : Str :=
  let keywordText := scatterKeywords kps keywords
  let highlights := pyNonempty (joinSep (str ", ") (cs.highlights.take 2)) (str "주목 받은 의견")
  let painPoints := pyNonempty (joinSep (str ", ") (cs.pain_points.take 2)) (str "해결이 필요한 문제")
  let wishes := pyNonempty (joinSep (str ", ") (cs.wishes.take 2)) (str "독자가 바라는 방향")
  if sectionName = str "서론" then
    str "읽기 쉬운 흐름으로 시작합니다. " ++ keywordText ++
      str "를 자연스럽게 녹여 주제를 소개하고, 독자가 궁금해할 질문을 던집니다."
  else if sectionName = str "문제 제기" then
    str "댓글에서 특히 언급된 \x27" ++ painPoints ++ str "\x27를 토대로 문제를 정리합니다. " ++
      keywordText ++ str "를 과도하지 않게 배치해 공감대를 형성합니다."
  else if sectionName = str "정보 제공" then
    str "실제 독자가 강조한 \x27" ++ highlights ++ str "\x27와 바라는 \x27" ++ wishes ++
      str "\x27를 중심으로 정보와 사례를 제시합니다. " ++ keywordText ++
      str "는 활용 팁과 함께 배치해 검색 가독성을 높입니다."
  else
    str "앞서 다룬 내용을 간결하게 요약하며 " ++ keywordText ++
      str "를 다시 한 번 짚습니다. 독자가 바로 적용할 수 있는 다음 행동을 안내하고 톤을 \x27" ++
      pyOr cs.tone (str "긍정적") ++ str "\x27으로 유지합니다."

/-- `BlogPostGenerator._build_section`: heading, `###` subheading and
paragraph joined by single line breaks. -/
def buildSection (kps : Nat) (sectionName : Str) (title : Str) (keywords : List Str)
    (cs : CommentSummary) : Str :=
  joinSep (str "\n")
    [str "## " ++ sectionName,
     str "### " ++ buildSubheading sectionName title cs,
     buildParagraph kps sectionName keywords cs]

/-- The keyword sanitation performed first by `BlogPostGenerator.generate`:
`[kw.strip() for kw in keywords if kw.strip()]`. -/
def sanitizeKeywords (keywords : List Str) : List Str :=
  (keywords.map strip).filter (fun k => decide (k ≠ []))

/-- `BlogPostGenerator.generate`: sanitize keywords, build the outline and the
four sections, and join every block with a blank line. -/
def generate (kps : Nat) (title : Str) (keywords : List Str) (cs : CommentSummary) : Str :=
  let ks := sanitizeKeywords keywords
  let outline := buildOutline title ks
  let sections := sectionOrder.enum.map
    (fun p => buildSection kps p.2 title (keywordsForSection kps ks p.1) cs)
  joinSep (str "\n\n") (outline ++ sections)

/-- `ParsedPage` of `src/ingestion/html_parser.py`. -/
structure ParsedPage where
  title : Option Str
  meta_description : Option Str
  body_text : Str
deriving DecidableEq

/-- Pipeline failures: `ValueError` raised by the controller or `parse_html`,
`TypeError` raised by `_analyze_comments`, and fetch errors propagated from
`requests`. -/
inductive PipeError where
  | invalidInput
  | typeMismatch
  | fetchFailure
deriving DecidableEq

/-- A generic mapping returned by `CommentAnalyzer.summarize`; each of the four
field names may be absent. -/
structure InsightMapping where
  highlights : Option (List Str)
  pain_points : Option (List Str)
  wishes : Option (List Str)
  tone : Option (Option Str)
deriving DecidableEq

/-- The shapes a `CommentAnalyzer.summarize` result can take: a
`CommentSummary` instance, a dict-like mapping, or anything else. -/
inductive AnalyzerResult where
  | summary (cs : CommentSummary)
  | mapping (m : InsightMapping)
  | other
deriving DecidableEq

/-- The normalization branch of `BlogPipeline._analyze_comments` applied to the
analyzer's result: accept `CommentSummary` unchanged, convert a mapping via
`dict.get` with empty defaults, and raise `TypeError` otherwise. -/
def normalizeAnalyzed : AnalyzerResult → Except PipeError CommentSummary
  | .summary cs => .ok cs
  | .mapping m =>
      .ok ⟨m.highlights.getD [], m.pain_points.getD [], m.wishes.getD [], m.tone.getD none⟩
  | .other => .error .typeMismatch

/-- `BlogPipeline._analyze_comments`: empty comment lists short-circuit to an
empty summary without invoking the analyzer. -/
def analyzeComments (analyzer : List Str → AnalyzerResult) (comments : List Str) :
    Except PipeError CommentSummary :=
  if comments = [] then .ok ⟨[], [], [], none⟩
  else normalizeAnalyzed (analyzer comments)

/-- The argument tuple passed to `TitleGenerator.generate` by
`BlogPipeline._generate_title`; `body_text` is `none` when the keyword
argument is omitted. -/
structure TitleCall where
  base_title : Str
  meta_description : Str
  highlights : List Str
  pain_points : List Str
  wishes : List Str
  body_text : Option Str
deriving DecidableEq

/-- `BlogPipeline._generate_title`, reified as the call it makes: strip the
page title; a non-empty result is refined without body text, otherwise the
title is synthesized from the body. -/
def titleCall (page : ParsedPage) (cs : CommentSummary) : TitleCall :=
  let base := strip (pyOr page.title [])
  if base ≠ [] then
    ⟨base, pyOr page.meta_description [], cs.highlights, cs.pain_points, cs.wishes, none⟩
  else
    ⟨[], pyOr page.meta_description [], cs.highlights, cs.pain_points, cs.wishes,
      some page.body_text⟩

/-- The dedup-and-filter loop of `BlogPipeline._derive_keywords`; `seen`
models the `seen` set (the loop only ever adds to it). -/
def dedupFilter (seen : List Str) : List Str → List Str
  | [] => []
  | s0 :: rest =>
    let s := strip s0
    if s = [] ∨ s.length < 2 then dedupFilter seen rest
    else if s ∈ seen then dedupFilter seen rest
    else s :: dedupFilter (s :: seen) rest

/-- `BlogPipeline._derive_keywords`: tokenize title then meta description,
strip, drop short tokens, dedup preserving order, truncate to 12. -/
def deriveKeywords (page : ParsedPage) (title : Str) : List Str :=
  let seeds :=
    (if title = [] then [] else tokenizeKoSimple title) ++
    (match page.meta_description with
     | none => []
     | some m => if m = [] then [] else tokenizeKoSimple m)
  (dedupFilter [] seeds).take 12

/-- The input validation of `parse_html` (`src/ingestion/html_parser.py:108`):
an empty or whitespace-only source raises `ValueError` before the URL check,
the network fetch, and the soup extraction, which together form the external
Page Content Provider modelled by `fetchParse`. -/
def parseHtml (fetchParse : Str → Except PipeError ParsedPage) (source : Str) :
    Except PipeError ParsedPage :=
  if source = [] ∨ strip source = [] then .error .invalidInput
  else fetchParse source

/-- The three collaborators held by `BlogPipeline.__init__`. -/
structure Providers where
  fetchParse : Str → Except PipeError ParsedPage
  analyzer : List Str → AnalyzerResult
  titleGen : TitleCall → Str

/-- `PipelineInput` of `src/orchestration/blog_pipeline.py`. -/
structure PipelineInput where
  url : Option Str
  html : Option Str
  comments : Option (List Str)

/-- `PipelineOutput` of `src/orchestration/blog_pipeline.py`; `parsed` keeps
the three `ParsedPage` fields the Python code flattens into a dict. -/
structure PipelineOutput where
  parsed : ParsedPage
  comment_summary : CommentSummary
  title : Str
  blog_post : Str
deriving DecidableEq

/-- Python truthiness of an optional string. -/
def truthy : Option Str → Bool
  | none => false
  | some s => decide (s ≠ [])

/-- The content source chosen by `run`: `inp.url if inp.url else inp.html`. -/
def sourceOf (inp : PipelineInput) : Str :=
  if truthy inp.url then inp.url.getD [] else inp.html.getD []

/-- `BlogPipeline.run`: validate the input, ingest, analyze comments, derive
the title and keywords, and compose the post with the default generator
(`keywords_per_section = 2`). -/
def run (pv : Providers) (inp : PipelineInput) : Except PipeError PipelineOutput :=
  if !truthy inp.url && !truthy inp.html then .error .invalidInput
  else
    match parseHtml pv.fetchParse (sourceOf inp) with
    | .error e => .error e
    | .ok page =>
      match analyzeComments pv.analyzer (inp.comments.getD []) with
      | .error e => .error e
      | .ok cs =>
        let title := pv.titleGen (titleCall page cs)
        let keywords := deriveKeywords page title
        .ok ⟨page, cs, title, generate 2 title keywords cs⟩

/-- The entirely empty comment insight: no highlights, pain points, wishes or
tone. -/
def emptyInsight : CommentSummary := ⟨[], [], [], none⟩

/-- Split a character list at newline characters, keeping empty lines
(Python `s.split("\n")`) — the line structure of a composed post. -/
def splitNl (l : Str) : List Str :=
  match l with
  | [] => [[]]
  | c :: cs =>
    if c = '\n' then [] :: splitNl cs
    else
      match splitNl cs with
      | [] => [[c]]
      | t :: ts => (c :: t) :: ts

/-- The four section heading lines, in the generator's fixed order. -/
def headingStrings : List Str :=
  [str "## 서론", str "## 문제 제기", str "## 정보 제공", str "## 정리"]

/-- Whether a line is one of the four section heading lines. -/
def isHeading (l : Str) : Bool := decide (l ∈ headingStrings)

/-- The lines of a string that are section heading lines. -/
def headingLines (s : Str) : List Str := (splitNl s).filter isHeading

/-- The fixed template fragments emitted by the generator when the comment
insight is entirely empty; used to reason about substring freedom. -/
def fixedBlocks : List Str :=
  [str "# ", str "- 주제 키워드: ", str "핵심 포인트", str ", ",
   str "- 구성: 서론 → 문제 제기 → 정보 제공 → 정리", str "\n", str "\n\n",
   str "## 서론", str "## 문제 제기", str "## 정보 제공", str "## 정리",
   str "### ", str "를 살펴보기 위한 첫걸음", str "독자 의견 속에서 드러난 고민",
   str "핵심 정보와 적용 팁", str "정리하며 살펴볼 핵심 포인트",
   str "핵심 키워드", str "와 ",
   str "읽기 쉬운 흐름으로 시작합니다. ",
   str "를 자연스럽게 녹여 주제를 소개하고, 독자가 궁금해할 질문을 던집니다.",
   str "댓글에서 특히 언급된 \x27해결이 필요한 문제\x27를 토대로 문제를 정리합니다. ",
   str "를 과도하지 않게 배치해 공감대를 형성합니다.",
   str "실제 독자가 강조한 \x27주목 받은 의견\x27와 바라는 \x27독자가 바라는 방향\x27를 중심으로 정보와 사례를 제시합니다. ",
   str "는 활용 팁과 함께 배치해 검색 가독성을 높입니다.",
   str "앞서 다룬 내용을 간결하게 요약하며 ",
   str "를 다시 한 번 짚습니다. 독자가 바로 적용할 수 있는 다음 행동을 안내하고 톤을 \x27",
   str "긍정적", str "\x27으로 유지합니다."]

/-- The characters adjacent to variable parts in the generator's templates. -/
def boundaryChars : Str :=
  ['\n', ' ', ',', '와', '를', '는', '#', '-', '읽', '댓', '실', '앞', '긍', '적']

/-- A comment analyzer returning an unrecognized shape, used in concrete
witnesses. -/
def analyzerOther : List Str → AnalyzerResult := fun _ => .other

/-- Sample providers used in concrete witnesses: the fetch succeeds and
returns the source as body text. -/
def pvEx : Providers :=
  ⟨fun s => .ok ⟨some (str "T"), none, s⟩, analyzerOther, fun _ => str "제목"⟩

/-- Sample pipeline input carrying raw markup and one comment. -/
def inpEx : PipelineInput := ⟨none, some (str "<p>x</p>"), some [str "hi"]⟩

/-- Sample pipeline input carrying raw markup and no comments. -/
def inpEx2 : PipelineInput := ⟨none, some (str "<p>x</p>"), none⟩

/-! Helper lemmas about `dropWhile` and `strip`. -/

lemma dropWhile_eq_self_of_forall (p : Char → Bool) (l : Str)
    (h : ∀ c ∈ l, p c = false) : l.dropWhile p = l := by
  induction l with
  | nil => rfl
  | cons c t ih =>
    rw [List.dropWhile_cons, if_neg]
    simp [h c (List.mem_cons_self c t)]

lemma dropWhile_head_false {p : Char → Bool} {l t : Str} {c : Char}
    (h : l.dropWhile p = c :: t) : p c = false := by
  induction l with
  | nil => simp at h
  | cons a l' ih =>
    rw [List.dropWhile_cons] at h
    cases hpa : p a with
    | true => rw [if_pos (by simp [hpa])] at h; exact ih h
    | false =>
      rw [if_neg (by simp [hpa])] at h
      injection h with h1 h2
      exact h1 ▸ hpa

lemma dropWhile_dropWhile (p : Char → Bool) (l : Str) :
    (l.dropWhile p).dropWhile p = l.dropWhile p := by
  cases hd : l.dropWhile p with
  | nil => rfl
  | cons c t => rw [List.dropWhile_cons, if_neg]; simp [dropWhile_head_false hd]

lemma strip_prefix_dropWhile (s : Str) : strip s <+: s.dropWhile isSpace := by
  have h : ((s.dropWhile isSpace).reverse.dropWhile isSpace) <:+
      (s.dropWhile isSpace).reverse := List.dropWhile_suffix isSpace
  have h2 : ((s.dropWhile isSpace).reverse.dropWhile isSpace).reverse <+:
      (s.dropWhile isSpace).reverse.reverse := List.reverse_prefix.mpr h
  rwa [List.reverse_reverse] at h2

lemma mem_strip {c : Char} {s : Str} (h : c ∈ strip s) : c ∈ s :=
  (List.dropWhile_sublist isSpace).subset ((strip_prefix_dropWhile s).subset h)

lemma strip_eq_self {s : Str} (h : ∀ c ∈ s, isSpace c = false) : strip s = s := by
  unfold strip
  rw [dropWhile_eq_self_of_forall isSpace s h,
      dropWhile_eq_self_of_forall isSpace s.reverse (by simpa using h),
      List.reverse_reverse]

lemma strip_head_false {s t : Str} {c : Char} (h : strip s = c :: t) :
    isSpace c = false := by
  obtain ⟨r, hr⟩ := strip_prefix_dropWhile s
  rw [h] at hr
  exact dropWhile_head_false hr.symm

lemma strip_idem (s : Str) : strip (strip s) = strip s := by
  have h1 : (strip s).dropWhile isSpace = strip s := by
    cases h : strip s with
    | nil => rfl
    | cons c t => rw [List.dropWhile_cons, if_neg]; simp [strip_head_false h]
  have h2 : (strip s).reverse = (s.dropWhile isSpace).reverse.dropWhile isSpace := by
    unfold strip; rw [List.reverse_reverse]
  show (((strip s).dropWhile isSpace).reverse.dropWhile isSpace).reverse = strip s
  rw [h1, h2, dropWhile_dropWhile, ← h2, List.reverse_reverse]

/-! Helper lemmas about `wordsAux`, `wordsPy` and `joinSep`. -/

lemma wordsAux_all (l : Str) : ∀ cur, (∀ c ∈ cur, isSpace c = false) →
    ∀ t ∈ wordsAux cur l, t ≠ [] ∧ ∀ c ∈ t, isSpace c = false ∧ (c ∈ cur ∨ c ∈ l) := by
  induction l with
  | nil =>
    intro cur hcur t ht
    by_cases h : cur = []
    · simp [wordsAux, h] at ht
    · rw [wordsAux, if_neg h] at ht
      rw [List.mem_singleton] at ht
      subst ht
      exact ⟨h, fun c hc => ⟨hcur c hc, Or.inl hc⟩⟩
  | cons a l' ih =>
    intro cur hcur t ht
    cases ha : isSpace a with
    | true =>
      rw [wordsAux, if_pos (by simp [ha])] at ht
      by_cases hc : cur = []
      · rw [if_pos hc] at ht
        obtain ⟨hne, hall⟩ := ih [] (by simp) t ht
        exact ⟨hne, fun c hmem => ⟨(hall c hmem).1,
          Or.inr (List.mem_cons_of_mem a ((hall c hmem).2.resolve_left (by simp)))⟩⟩
      · rw [if_neg hc, List.mem_cons] at ht
        rcases ht with ht | ht
        · subst ht
          exact ⟨hc, fun c hmem => ⟨hcur c hmem, Or.inl hmem⟩⟩
        · obtain ⟨hne, hall⟩ := ih [] (by simp) t ht
          exact ⟨hne, fun c hmem => ⟨(hall c hmem).1,
            Or.inr (List.mem_cons_of_mem a ((hall c hmem).2.resolve_left (by simp)))⟩⟩
    | false =>
      rw [wordsAux, if_neg (by simp [ha])] at ht
      have hcur' : ∀ c ∈ cur ++ [a], isSpace c = false := by
        intro c hc
        rcases List.mem_append.mp hc with hc | hc
        · exact hcur c hc
        · rw [List.mem_singleton] at hc; subst hc; exact ha
      obtain ⟨hne, hall⟩ := ih (cur ++ [a]) hcur' t ht
      refine ⟨hne, fun c hmem => ⟨(hall c hmem).1, ?_⟩⟩
      rcases (hall c hmem).2 with hc | hc
      · rcases List.mem_append.mp hc with hc | hc
        · exact Or.inl hc
        · rw [List.mem_singleton.mp hc]; exact Or.inr (List.mem_cons_self a l')
      · exact Or.inr (List.mem_cons_of_mem a hc)

lemma wordsPy_all (l : Str) : ∀ t ∈ wordsPy l,
    t ≠ [] ∧ ∀ c ∈ t, isSpace c = false ∧ c ∈ l := by
  intro t ht
  obtain ⟨hne, hall⟩ := wordsAux_all l [] (by simp) t ht
  exact ⟨hne, fun c hc => ⟨(hall c hc).1, (hall c hc).2.resolve_left (by simp)⟩⟩

lemma wordsAux_append {k : Str} (hk : ∀ c ∈ k, isSpace c = false) :
    ∀ cur l, wordsAux cur (k ++ l) = wordsAux (cur ++ k) l := by
  induction k with
  | nil => intro cur l; rw [List.nil_append, List.append_nil]
  | cons a k' ih =>
    intro cur l
    have ha : isSpace a = false := hk a (List.mem_cons_self a k')
    rw [List.cons_append, wordsAux, if_neg (by simp [ha]),
        ih (fun c hc => hk c (List.mem_cons_of_mem a hc)) (cur ++ [a]) l,
        List.append_assoc, List.singleton_append]

lemma joinSep_cons_cons (sep x y : Str) (r : List Str) :
    joinSep sep (x :: y :: r) = x ++ sep ++ joinSep sep (y :: r) := rfl

lemma wordsPy_joinSep_space (ks : List Str)
    (h : ∀ k ∈ ks, k ≠ [] ∧ ∀ c ∈ k, isSpace c = false) :
    wordsPy (joinSep [' '] ks) = ks := by
  induction ks with
  | nil => rfl
  | cons k rest ih =>
    obtain ⟨hk, hks⟩ := h k (List.mem_cons_self k rest)
    cases rest with
    | nil =>
      show wordsAux [] k = [k]
      have hstep := wordsAux_append hks [] ([] : Str)
      rw [List.append_nil, List.nil_append] at hstep
      rw [hstep, wordsAux, if_neg hk]
    | cons y r =>
      rw [joinSep_cons_cons]
      show wordsAux [] (k ++ [' '] ++ joinSep [' '] (y :: r)) = k :: (y :: r)
      rw [List.append_assoc, List.singleton_append,
          wordsAux_append hks [] (' ' :: joinSep [' '] (y :: r)), List.nil_append,
          wordsAux, if_pos (by decide), if_neg hk]
      exact congrArg (fun w => k :: w) (ih (fun x hx => h x (List.mem_cons_of_mem k hx)))

lemma mem_joinSep {c : Char} (sep : Str) (l : List Str) (h : c ∈ joinSep sep l) :
    c ∈ sep ∨ ∃ x ∈ l, c ∈ x := by
  induction l with
  | nil => simp [joinSep] at h
  | cons x rest ih =>
    cases rest with
    | nil => exact Or.inr ⟨x, List.mem_cons_self x [], h⟩
    | cons y r =>
      rw [joinSep_cons_cons] at h
      rcases List.mem_append.mp h with h | h
      · rcases List.mem_append.mp h with h | h
        · exact Or.inr ⟨x, List.mem_cons_self x (y :: r), h⟩
        · exact Or.inl h
      · rcases ih h with h | ⟨z, hz, hc⟩
        · exact Or.inl h
        · exact Or.inr ⟨z, List.mem_cons_of_mem x hz, hc⟩

lemma joinSep_ne_nil (sep : Str) (k : Str) (r : List Str) (hk : k ≠ []) :
    joinSep sep (k :: r) ≠ [] := by
  cases r with
  | nil => exact hk
  | cons y t =>
    rw [joinSep_cons_cons]
    cases k with
    | nil => exact absurd rfl hk
    | cons c w => simp

lemma map_id_of_forall {α : Type} (f : α → α) (l : List α) (h : ∀ c ∈ l, f c = c) :
    l.map f = l := by
  induction l with
  | nil => rfl
  | cons c t ih =>
    rw [List.map_cons, h c (List.mem_cons_self c t),
        ih (fun x hx => h x (List.mem_cons_of_mem c hx))]

lemma replacePunct_not_mem (c : Char) : replacePunct c ∉ puncts := by
  unfold replacePunct
  by_cases h : c ∈ puncts
  · rw [if_pos h]; decide
  · rwa [if_neg h]

lemma tokenize_nil : tokenizeKoSimple [] = [] := rfl

lemma tokenize_props (text : Str) : ∀ t ∈ tokenizeKoSimple text,
    t ≠ [] ∧ ∀ c ∈ t, isSpace c = false ∧ c ∉ puncts := by
  intro t ht
  obtain ⟨hne, hall⟩ := wordsPy_all (text.map replacePunct) t ht
  refine ⟨hne, fun c hc => ⟨(hall c hc).1, ?_⟩⟩
  obtain ⟨c', _, hc'⟩ := List.mem_map.mp (hall c hc).2
  exact hc' ▸ replacePunct_not_mem c'

/-! Helper lemmas about the dedup-and-filter loop of `_derive_keywords`. -/

lemma dedupFilter_sublist (l : List Str) : ∀ seen, (∀ s ∈ l, strip s = s) →
    List.Sublist (dedupFilter seen l) l := by
  induction l with
  | nil => intro seen _; exact List.Sublist.refl []
  | cons s0 rest ih =>
    intro seen h
    have h0 : strip s0 = s0 := h s0 (List.mem_cons_self s0 rest)
    have hrest := fun s hs => h s (List.mem_cons_of_mem s0 hs)
    rw [dedupFilter]
    by_cases g1 : strip s0 = [] ∨ (strip s0).length < 2
    · rw [if_pos g1]; exact (ih seen hrest).cons s0
    · rw [if_neg g1]
      by_cases g2 : strip s0 ∈ seen
      · rw [if_pos g2]; exact (ih seen hrest).cons s0
      · rw [if_neg g2, h0]
        exact (ih (s0 :: seen) hrest).cons₂ s0

lemma dedupFilter_mem (l : List Str) : ∀ seen, ∀ t ∈ dedupFilter seen l,
    2 ≤ t.length ∧ t ∉ seen ∧ ∃ s ∈ l, t = strip s := by
  induction l with
  | nil => intro seen t ht; simp [dedupFilter] at ht
  | cons s0 rest ih =>
    intro seen t ht
    rw [dedupFilter] at ht
    by_cases g1 : strip s0 = [] ∨ (strip s0).length < 2
    · rw [if_pos g1] at ht
      obtain ⟨h1, h2, s, hs, he⟩ := ih seen t ht
      exact ⟨h1, h2, s, List.mem_cons_of_mem s0 hs, he⟩
    · rw [if_neg g1] at ht
      by_cases g2 : strip s0 ∈ seen
      · rw [if_pos g2] at ht
        obtain ⟨h1, h2, s, hs, he⟩ := ih seen t ht
        exact ⟨h1, h2, s, List.mem_cons_of_mem s0 hs, he⟩
      · rw [if_neg g2, List.mem_cons] at ht
        push_neg at g1
        rcases ht with ht | ht
        · subst ht
          exact ⟨g1.2, g2, s0, List.mem_cons_self s0 rest, rfl⟩
        · obtain ⟨h1, h2, s, hs, he⟩ := ih (strip s0 :: seen) t ht
          exact ⟨h1, fun hm => h2 (List.mem_cons_of_mem _ hm),
            s, List.mem_cons_of_mem s0 hs, he⟩

lemma dedupFilter_nodup (l : List Str) : ∀ seen, (dedupFilter seen l).Nodup := by
  induction l with
  | nil => intro seen; exact List.nodup_nil
  | cons s0 rest ih =>
    intro seen
    rw [dedupFilter]
    by_cases g1 : strip s0 = [] ∨ (strip s0).length < 2
    · rw [if_pos g1]; exact ih seen
    · rw [if_neg g1]
      by_cases g2 : strip s0 ∈ seen
      · rw [if_pos g2]; exact ih seen
      · rw [if_neg g2]
        refine List.nodup_cons.mpr ⟨fun hmem => ?_, ih (strip s0 :: seen)⟩
        exact (dedupFilter_mem rest (strip s0 :: seen) _ hmem).2.1
          (List.mem_cons_self _ _)

lemma dedupFilter_fixpoint (l : List Str) : ∀ seen, l.Nodup →
    (∀ s ∈ l, strip s = s ∧ 2 ≤ s.length) → (∀ s ∈ l, s ∉ seen) →
    dedupFilter seen l = l := by
  induction l with
  | nil => intro seen _ _ _; rfl
  | cons s0 rest ih =>
    intro seen hnd hprop hseen
    obtain ⟨hstrip, hlen⟩ := hprop s0 (List.mem_cons_self s0 rest)
    have hne : s0 ≠ [] := by
      intro h; rw [h] at hlen; simp at hlen
    rw [dedupFilter, if_neg, if_neg]
    · rw [hstrip]
      congr 1
      obtain ⟨hnotmem, hnd'⟩ := List.nodup_cons.mp hnd
      refine ih (s0 :: seen) hnd'
        (fun s hs => hprop s (List.mem_cons_of_mem s0 hs)) (fun s hs hmem => ?_)
      rcases List.mem_cons.mp hmem with hmem | hmem
      · exact hnotmem (hmem ▸ hs)
      · exact hseen s (List.mem_cons_of_mem s0 hs) hmem
    · rw [hstrip]; exact hseen s0 (List.mem_cons_self s0 rest)
    · rw [hstrip]; push_neg; exact ⟨hne, hlen⟩

lemma deriveKeywords_eq (page : ParsedPage) (title : Str) :
    deriveKeywords page title =
      (dedupFilter []
        (tokenizeKoSimple title ++
          tokenizeKoSimple (page.meta_description.getD []))).take 12 := by
  obtain ⟨t, m, b⟩ := page
  simp only [deriveKeywords]
  cases m with
  | none =>
    simp only [Option.getD_none, tokenize_nil, List.append_nil]
    by_cases h : title = []
    · rw [if_pos h, h, tokenize_nil]
    · rw [if_neg h]
  | some md =>
    simp only [Option.getD_some]
    by_cases h : title = []
    · rw [if_pos h, h, tokenize_nil]
      by_cases hm : md = []
      · rw [if_pos hm, hm, tokenize_nil]
      · rw [if_neg hm]
    · rw [if_neg h]
      by_cases hm : md = []
      · rw [if_pos hm, hm, tokenize_nil]
      · rw [if_neg hm]

/-- C3: the derived keyword list is an order-preserving selection from the
tokens of the title followed by the tokens of the meta description, contains
no duplicates, no entry shorter than 2 characters, and at most 12 entries. -/
theorem derive_keywords_spec (page : ParsedPage) (title : Str) :
    List.Sublist (deriveKeywords page title)
      (tokenizeKoSimple title ++ tokenizeKoSimple (page.meta_description.getD [])) ∧
    (deriveKeywords page title).Nodup ∧
    (∀ k ∈ deriveKeywords page title, 2 ≤ k.length) ∧
    (deriveKeywords page title).length ≤ 12 := by
  have hseeds : ∀ s ∈ tokenizeKoSimple title ++
      tokenizeKoSimple (page.meta_description.getD []), strip s = s := by
    intro s hs
    rcases List.mem_append.mp hs with hs | hs
    · exact strip_eq_self (fun c hc => ((tokenize_props _ s hs).2 c hc).1)
    · exact strip_eq_self (fun c hc => ((tokenize_props _ s hs).2 c hc).1)
  rw [deriveKeywords_eq]
  refine ⟨?_, ?_, ?_, ?_⟩
  · exact (List.take_sublist _ _).trans (dedupFilter_sublist _ [] hseeds)
  · exact (dedupFilter_nodup _ []).sublist (List.take_sublist _ _)
  · intro k hk
    exact (dedupFilter_mem _ [] k (List.take_subset _ _ hk)).1
  · exact List.length_take_le _ _

/-- Witness for C3 at a concrete title and meta description. -/
theorem derive_keywords_spec_witness :
    (deriveKeywords ⟨none, some (str "세로 모드 팁"), []⟩ (str "가로 모드, 팁!")).length ≤ 12 :=
  (derive_keywords_spec ⟨none, some (str "세로 모드 팁"), []⟩ (str "가로 모드, 팁!")).2.2.2

/-- C4: a section's keyword chunk is the `kps`-sized slice starting at
`sectionIndex * kps`; an empty slice falls back to the first `kps`-sized
slice, so the chunk is empty exactly when the keyword list is. -/
theorem keywords_for_section_spec (kps : Nat) (ks : List Str) (i : Nat) (hkps : 0 < kps) :
    ((ks.drop (i * kps)).take kps ≠ [] →
        keywordsForSection kps ks i = (ks.drop (i * kps)).take kps) ∧
    ((ks.drop (i * kps)).take kps = [] →
        keywordsForSection kps ks i = ks.take kps) ∧
    (keywordsForSection kps ks i).length ≤ kps ∧
    (keywordsForSection kps ks i = [] ↔ ks = []) := by
  unfold keywordsForSection
  by_cases h : (ks.drop (i * kps)).take kps = []
  · rw [if_pos h]
    refine ⟨fun hc => absurd h hc, fun _ => rfl, List.length_take_le _ _, ?_⟩
    constructor
    · intro ht
      rcases List.take_eq_nil_iff.mp ht with ht | ht
      · exact absurd ht (Nat.pos_iff_ne_zero.mp hkps)
      · exact ht
    · intro hks; rw [hks]; exact List.take_nil
  · rw [if_neg h]
    refine ⟨fun _ => rfl, fun hc => absurd hc h, List.length_take_le _ _, ?_⟩
    constructor
    · intro ht; exact absurd ht h
    · intro hks
      rw [hks] at h
      simp at h

/-- Witness for C4: three keywords, chunk size 2, section index 3 falls back
to the first two keywords. -/
theorem keywords_for_section_spec_witness :
    keywordsForSection 2 [str "ab", str "cd", str "ef"] 3 = [str "ab", str "cd"] :=
  (keywords_for_section_spec 2 [str "ab", str "cd", str "ef"] 3 (by decide)).2.1 (by decide)

/-- C7: keyword derivation is idempotent on its own output: re-deriving from
the space-joined keyword list (with an absent meta description) returns the
same list. -/
theorem derive_keywords_idempotent (page : ParsedPage) (title : Str) :
    deriveKeywords ⟨none, none, []⟩ (joinSep [' '] (deriveKeywords page title)) =
      deriveKeywords page title := by
  obtain ⟨hsub, hnodup, hlen, hle⟩ := derive_keywords_spec page title
  have hel : ∀ k ∈ deriveKeywords page title,
      k ≠ [] ∧ ∀ c ∈ k, isSpace c = false ∧ c ∉ puncts := by
    intro k hk
    have hk' := hsub.subset hk
    rcases List.mem_append.mp hk' with h | h
    · exact tokenize_props _ k h
    · exact tokenize_props _ k h
  cases hks : deriveKeywords page title with
  | nil => rfl
  | cons k0 rest =>
    rw [← hks]
    have hel' := hks ▸ hel
    have hjoin_ne : joinSep [' '] (deriveKeywords page title) ≠ [] := by
      rw [hks]
      exact joinSep_ne_nil [' '] k0 rest
        (hel' k0 (hks ▸ List.mem_cons_self k0 rest)).1
    have hmap : (joinSep [' '] (deriveKeywords page title)).map replacePunct =
        joinSep [' '] (deriveKeywords page title) := by
      refine map_id_of_forall _ _ (fun c hc => ?_)
      rcases mem_joinSep [' '] _ hc with h | ⟨x, hx, hcx⟩
      · rw [List.mem_singleton.mp h]; decide
      · exact if_neg ((hel x hx).2 c hcx).2
    have htok : tokenizeKoSimple (joinSep [' '] (deriveKeywords page title)) =
        deriveKeywords page title := by
      unfold tokenizeKoSimple wordsPy
      rw [hmap]
      exact wordsPy_joinSep_space _
        (fun k hk => ⟨(hel k hk).1, fun c hc => ((hel k hk).2 c hc).1⟩)
    rw [deriveKeywords_eq]
    simp only [Option.getD_none]
    rw [tokenize_nil, List.append_nil, htok,
        dedupFilter_fixpoint _ [] hnodup
          (fun s hs => ⟨strip_eq_self (fun c hc => ((hel s hs).2 c hc).1), hlen s hs⟩)
          (fun s _ hm => (List.not_mem_nil s) hm),
        List.take_of_length_le hle]

/-! Keyword sanitation and the pipeline claims. -/

lemma filter_id_of_forall {α : Type} (p : α → Bool) (l : List α)
    (h : ∀ a ∈ l, p a = true) : l.filter p = l := by
  induction l with
  | nil => rfl
  | cons a t ih =>
    rw [List.filter_cons, if_pos (h a (List.mem_cons_self a t)),
        ih (fun x hx => h x (List.mem_cons_of_mem a hx))]

lemma sanitize_mem (kws : List Str) : ∀ k ∈ sanitizeKeywords kws,
    k ≠ [] ∧ ∃ s ∈ kws, k = strip s := by
  intro k hk
  unfold sanitizeKeywords at hk
  obtain ⟨hk1, hk2⟩ := List.mem_filter.mp hk
  refine ⟨of_decide_eq_true hk2, ?_⟩
  obtain ⟨s, hs, he⟩ := List.mem_map.mp hk1
  exact ⟨s, hs, he.symm⟩

lemma sanitize_idem (kws : List Str) :
    sanitizeKeywords (sanitizeKeywords kws) = sanitizeKeywords kws := by
  have hmem := sanitize_mem kws
  show ((sanitizeKeywords kws).map strip).filter _ = _
  have hmap : (sanitizeKeywords kws).map strip = sanitizeKeywords kws := by
    refine map_id_of_forall strip (sanitizeKeywords kws) (fun k hk => ?_)
    obtain ⟨_, s, _, he⟩ := hmem k hk
    rw [he, strip_idem]
  rw [hmap]
  exact filter_id_of_forall _ _ (fun k hk => decide_eq_true (hmem k hk).1)

/-- C10: `generate` sanitizes its keyword input before any use, so composing
with a keyword list containing blank entries equals composing with the
cleaned list, and no section chunk ever holds a blank keyword. -/
theorem generate_sanitizes_keywords (kps : Nat) (title : Str) (kws : List Str)
    (cs : CommentSummary) :
    generate kps title kws cs = generate kps title (sanitizeKeywords kws) cs ∧
    ∀ i : Nat,
      (keywordsForSection kps (sanitizeKeywords kws) i).all (fun k => !k.isEmpty) = true := by
  constructor
  · simp only [generate, sanitize_idem]
  · intro i
    rw [List.all_eq_true]
    intro k hk
    have hmem : k ∈ sanitizeKeywords kws := by
      unfold keywordsForSection at hk
      by_cases h : ((sanitizeKeywords kws).drop (i * kps)).take kps = []
      · rw [if_pos h] at hk
        exact List.take_subset _ _ hk
      · rw [if_neg h] at hk
        exact List.drop_subset _ _ (List.take_subset _ _ hk)
    have hne := (sanitize_mem kws k hmem).1
    cases k with
    | nil => exact absurd rfl hne
    | cons c t => rfl

/-- Witness for C10: blank and padded keywords are cleaned before use. -/
theorem generate_sanitizes_keywords_witness :
    generate 2 (str "제목") [str " 가나 ", str "   ", str "다라"] ⟨[], [], [], none⟩ =
      generate 2 (str "제목") [str "가나", str "다라"] ⟨[], [], [], none⟩ :=
  (generate_sanitizes_keywords 2 (str "제목") [str " 가나 ", str "   ", str "다라"]
    ⟨[], [], [], none⟩).1

/-- C2: with comments supplied, a `CommentSummary`-shaped analyzer result is
accepted unchanged, a mapping is converted field-by-field with empty
defaults, and any other shape aborts the run with a type-mismatch error and
no pipeline result. -/
theorem analyze_comments_contract (a : List Str → AnalyzerResult) (comments : List Str)
    (pv : Providers) (inp : PipelineInput) (page : ParsedPage)
    (hne : comments ≠ []) :
    (∀ cs, a comments = .summary cs → analyzeComments a comments = .ok cs) ∧
    (∀ m, a comments = .mapping m → analyzeComments a comments =
      .ok ⟨m.highlights.getD [], m.pain_points.getD [], m.wishes.getD [], m.tone.getD none⟩) ∧
    (a comments = .other → analyzeComments a comments = .error .typeMismatch) ∧
    (inp.comments = some comments →
      (truthy inp.url || truthy inp.html) = true →
      pv.fetchParse (sourceOf inp) = .ok page →
      sourceOf inp ≠ [] → strip (sourceOf inp) ≠ [] →
      pv.analyzer comments = .other →
      run pv inp = .error .typeMismatch) := by
  have hbase : analyzeComments a comments = normalizeAnalyzed (a comments) := by
    unfold analyzeComments
    rw [if_neg hne]
  refine ⟨?_, ?_, ?_, ?_⟩
  · intro cs h; rw [hbase, h]; rfl
  · intro m h; rw [hbase, h]; rfl
  · intro h; rw [hbase, h]; rfl
  · intro hc hsrc hfp hs1 hs2 hother
    have hcond : (!truthy inp.url && !truthy inp.html) = false := by
      rw [← Bool.not_or, hsrc]
      rfl
    have hparse : parseHtml pv.fetchParse (sourceOf inp) = .ok page := by
      unfold parseHtml
      rw [if_neg (by push_neg; exact ⟨hs1, hs2⟩), hfp]
    have hana : analyzeComments pv.analyzer (inp.comments.getD []) =
        .error .typeMismatch := by
      rw [hc, Option.getD_some]
      unfold analyzeComments
      rw [if_neg hne, hother]
      rfl
    unfold run
    rw [if_neg (by rw [hcond]; exact Bool.false_ne_true), hparse, hana]

/-- Witness for C2: a run whose analyzer returns an unrecognized shape fails
with a type-mismatch error. -/
theorem analyze_comments_contract_witness :
    run pvEx inpEx = .error .typeMismatch :=
  (analyze_comments_contract analyzerOther [str "hi"] pvEx inpEx
    ⟨some (str "T"), none, str "<p>x</p>"⟩ (by decide)).2.2.2
    rfl rfl rfl (by decide) (by decide) rfl

/-- C5: with comments absent or empty, the analyzer is never consulted (the
run result does not depend on it) and the comment summary is the empty
insight. -/
theorem run_without_comments (pv : Providers) (g : List Str → AnalyzerResult)
    (inp : PipelineInput) (h : inp.comments = none ∨ inp.comments = some []) :
    run { pv with analyzer := g } inp = run pv inp ∧
    analyzeComments pv.analyzer (inp.comments.getD []) = .ok ⟨[], [], [], none⟩ ∧
    ∀ out, run pv inp = .ok out → out.comment_summary = ⟨[], [], [], none⟩ := by
  have hc : inp.comments.getD [] = [] := by
    rcases h with h | h <;> rw [h] <;> rfl
  have hana : ∀ f : List Str → AnalyzerResult,
      analyzeComments f (inp.comments.getD []) = .ok ⟨[], [], [], none⟩ := by
    intro f
    rw [hc]
    rfl
  obtain ⟨fp, an, tg⟩ := pv
  refine ⟨?_, hana _, ?_⟩
  · unfold run
    by_cases hif : (!truthy inp.url && !truthy inp.html) = true
    · rw [if_pos hif, if_pos hif]
    · rw [if_neg hif, if_neg hif]
      cases hp : parseHtml fp (sourceOf inp) with
      | error e => rfl
      | ok page => rw [hana g, hana an]
  · intro out hout
    unfold run at hout
    by_cases hif : (!truthy inp.url && !truthy inp.html) = true
    · rw [if_pos hif] at hout
      exact absurd hout (by simp)
    · rw [if_neg hif] at hout
      cases hp : parseHtml fp (sourceOf inp) with
      | error e => rw [hp] at hout; exact absurd hout (by simp)
      | ok page =>
        rw [hp, hana an] at hout
        injection hout with hout
        rw [← hout]

/-- Witness for C5: two runs differing only in the analyzer agree when no
comments are supplied. -/
theorem run_without_comments_witness :
    run { pvEx with analyzer := fun _ => .summary ⟨[str "x"], [], [], none⟩ } inpEx2 =
      run pvEx inpEx2 :=
  (run_without_comments pvEx (fun _ => .summary ⟨[str "x"], [], [], none⟩) inpEx2
    (Or.inl rfl)).1

/-- C6: with no usable source, or a whitespace-only source, the run fails
with the invalid-input error for every choice of providers, so no provider
is ever consulted. -/
theorem run_invalid_input (inp : PipelineInput)
    (h : (truthy inp.url = false ∧ truthy inp.html = false) ∨ strip (sourceOf inp) = []) :
    ∀ pv, run pv inp = .error .invalidInput := by
  intro pv
  unfold run
  rcases h with ⟨h1, h2⟩ | h
  · rw [if_pos (by rw [h1, h2]; rfl)]
  · by_cases hif : (!truthy inp.url && !truthy inp.html) = true
    · rw [if_pos hif]
    · rw [if_neg hif]
      have hparse : parseHtml pv.fetchParse (sourceOf inp) = .error .invalidInput := by
        unfold parseHtml
        rw [if_pos (Or.inr h)]
      rw [hparse]

/-- Witness for C6: a run with no source at all, and a run with a
whitespace-only markup source, both fail with the invalid-input error. -/
theorem run_invalid_input_witness :
    run pvEx ⟨none, none, none⟩ = .error .invalidInput ∧
    run pvEx ⟨some (str "   "), none, none⟩ = .error .invalidInput :=
  ⟨run_invalid_input ⟨none, none, none⟩ (Or.inl ⟨rfl, rfl⟩) pvEx,
   run_invalid_input ⟨some (str "   "), none, none⟩ (Or.inr (by decide)) pvEx⟩

/-- C9 (amended): the Title Deriver call uses the stripped page title; when
the stripped title is non-empty the body text is omitted, otherwise the base
title is empty and the body text is included. -/
theorem generate_title_call_spec (page : ParsedPage) (cs : CommentSummary) :
    (strip (pyOr page.title []) ≠ [] →
      titleCall page cs = ⟨strip (pyOr page.title []), pyOr page.meta_description [],
        cs.highlights, cs.pain_points, cs.wishes, none⟩) ∧
    (strip (pyOr page.title []) = [] →
      titleCall page cs = ⟨[], pyOr page.meta_description [],
        cs.highlights, cs.pain_points, cs.wishes, some page.body_text⟩) := by
  unfold titleCall
  by_cases h : strip (pyOr page.title []) ≠ []
  · rw [if_pos h]
    exact ⟨fun _ => rfl, fun hc => absurd hc h⟩
  · rw [if_neg h]
    push_neg at h
    exact ⟨fun hc => absurd h hc, fun _ => rfl⟩

/-- Witness for C9: a padded page title is stripped and refined without body
text. -/
theorem generate_title_call_spec_witness :
    titleCall ⟨some (str " 제목 "), some (str "설명"), str "본문"⟩ ⟨[], [], [], none⟩ =
      ⟨str "제목", str "설명", [], [], [], none⟩ :=
  (generate_title_call_spec ⟨some (str " 제목 "), some (str "설명"), str "본문"⟩
    ⟨[], [], [], none⟩).1 (by decide)

/-- Counterexample for C9 as stated: a whitespace-only page title is a
non-empty string, yet the Title Deriver is called with the page body text
and with a base title differing from the page title. -/
theorem generate_title_call_claim_cex :
    (some [' '] : Option Str) ≠ none ∧ ([' '] : Str) ≠ [] ∧
    (titleCall ⟨some [' '], none, str "본문"⟩ ⟨[], [], [], none⟩).body_text =
      some (str "본문") ∧
    (titleCall ⟨some [' '], none, str "본문"⟩ ⟨[], [], [], none⟩).base_title ≠ [' '] := by
  decide

/-! The line structure of a composed post (claim C1). -/

lemma headingStrings_eq_map :
    headingStrings = sectionOrder.map (fun n => str "## " ++ n) := rfl

lemma generate_unfold (kps : Nat) (title : Str) (kws : List Str) (cs : CommentSummary) :
    generate kps title kws cs =
      ((str "# " ++ title) ++ str "\n\n") ++
      (((str "- 주제 키워드: " ++
          (if sanitizeKeywords kws = [] then str "핵심 포인트"
           else joinSep (str ", ") ((sanitizeKeywords kws).take 3))) ++ str "\n\n") ++
       ((str "- 구성: 서론 → 문제 제기 → 정보 제공 → 정리" ++ str "\n\n") ++
        ((buildSection kps (str "서론") title
            (keywordsForSection kps (sanitizeKeywords kws) 0) cs ++ str "\n\n") ++
         ((buildSection kps (str "문제 제기") title
             (keywordsForSection kps (sanitizeKeywords kws) 1) cs ++ str "\n\n") ++
          ((buildSection kps (str "정보 제공") title
              (keywordsForSection kps (sanitizeKeywords kws) 2) cs ++ str "\n\n") ++
           buildSection kps (str "정리") title
             (keywordsForSection kps (sanitizeKeywords kws) 3) cs))))) := rfl

lemma buildSection_unfold (kps : Nat) (nm title : Str) (ksec : List Str) (cs : CommentSummary) :
    buildSection kps nm title ksec cs =
      ((str "## " ++ nm) ++ str "\n") ++
      (((str "### " ++ buildSubheading nm title cs) ++ str "\n") ++
        buildParagraph kps nm ksec cs) := rfl

lemma buildSubheading_intro_eq (title : Str) (cs : CommentSummary) :
    buildSubheading (str "서론") title cs = title ++ str "를 살펴보기 위한 첫걸음" := rfl

lemma buildSubheading_problem_eq (title : Str) (cs : CommentSummary) :
    buildSubheading (str "문제 제기") title cs =
      pyOr cs.tone (str "독자 의견") ++ str " 속에서 드러난 고민" := rfl

lemma buildSubheading_info_eq (title : Str) (cs : CommentSummary) :
    buildSubheading (str "정보 제공") title cs = str "핵심 정보와 적용 팁" := rfl

lemma buildSubheading_wrap_eq (title : Str) (cs : CommentSummary) :
    buildSubheading (str "정리") title cs = str "정리하며 살펴볼 핵심 포인트" := rfl

lemma buildParagraph_intro_eq (kps : Nat) (ksec : List Str) (cs : CommentSummary) :
    buildParagraph kps (str "서론") ksec cs =
      (str "읽기 쉬운 흐름으로 시작합니다. " ++ scatterKeywords kps ksec) ++
        str "를 자연스럽게 녹여 주제를 소개하고, 독자가 궁금해할 질문을 던집니다." := rfl

lemma buildParagraph_problem_eq (kps : Nat) (ksec : List Str) (cs : CommentSummary) :
    buildParagraph kps (str "문제 제기") ksec cs =
      (((str "댓글에서 특히 언급된 \x27" ++
          pyNonempty (joinSep (str ", ") (cs.pain_points.take 2)) (str "해결이 필요한 문제")) ++
         str "\x27를 토대로 문제를 정리합니다. ") ++ scatterKeywords kps ksec) ++
        str "를 과도하지 않게 배치해 공감대를 형성합니다." := rfl

lemma buildParagraph_info_eq (kps : Nat) (ksec : List Str) (cs : CommentSummary) :
    buildParagraph kps (str "정보 제공") ksec cs =
      (((((str "실제 독자가 강조한 \x27" ++
            pyNonempty (joinSep (str ", ") (cs.highlights.take 2)) (str "주목 받은 의견")) ++
           str "\x27와 바라는 \x27") ++
          pyNonempty (joinSep (str ", ") (cs.wishes.take 2)) (str "독자가 바라는 방향")) ++
         str "\x27를 중심으로 정보와 사례를 제시합니다. ") ++ scatterKeywords kps ksec) ++
        str "는 활용 팁과 함께 배치해 검색 가독성을 높입니다." := rfl

lemma buildParagraph_wrap_eq (kps : Nat) (ksec : List Str) (cs : CommentSummary) :
    buildParagraph kps (str "정리") ksec cs =
      (((str "앞서 다룬 내용을 간결하게 요약하며 " ++ scatterKeywords kps ksec) ++
         str "를 다시 한 번 짚습니다. 독자가 바로 적용할 수 있는 다음 행동을 안내하고 톤을 \x27") ++
        pyOr cs.tone (str "긍정적")) ++ str "\x27으로 유지합니다." := rfl

lemma splitNl_nlfree {a : Str} (h : ∀ c ∈ a, c ≠ '\n') : splitNl a = [a] := by
  induction a with
  | nil => rfl
  | cons c cs ih =>
    simp only [splitNl]
    rw [if_neg (h c (List.mem_cons_self c cs)),
        ih (fun x hx => h x (List.mem_cons_of_mem c hx))]

lemma splitNl_cons_nl (b : Str) : splitNl ('\n' :: b) = [] :: splitNl b := by
  simp [splitNl]

lemma splitNl_append_nl (a b : Str) (h : ∀ c ∈ a, c ≠ '\n') :
    splitNl (a ++ '\n' :: b) = a :: splitNl b := by
  induction a with
  | nil => rw [List.nil_append, splitNl_cons_nl]
  | cons c cs ih =>
    rw [List.cons_append]
    simp only [splitNl]
    rw [if_neg (h c (List.mem_cons_self c cs)),
        ih (fun x hx => h x (List.mem_cons_of_mem c hx))]

lemma splitNl_line_sep2 (a rest : Str) (h : ∀ c ∈ a, c ≠ '\n') :
    splitNl ((a ++ str "\n\n") ++ rest) = a :: [] :: splitNl rest := by
  rw [List.append_assoc]
  show splitNl (a ++ '\n' :: ('\n' :: rest)) = _
  rw [splitNl_append_nl a _ h, splitNl_cons_nl]

lemma splitNl_line_sep1 (a rest : Str) (h : ∀ c ∈ a, c ≠ '\n') :
    splitNl ((a ++ str "\n") ++ rest) = a :: splitNl rest := by
  rw [List.append_assoc]
  show splitNl (a ++ '\n' :: rest) = _
  exact splitNl_append_nl a rest h

lemma splitNl_section_sep2 (h s p rest : Str)
    (hh : ∀ c ∈ h, c ≠ '\n') (hs : ∀ c ∈ s, c ≠ '\n') (hp : ∀ c ∈ p, c ≠ '\n') :
    splitNl ((((h ++ str "\n") ++ ((s ++ str "\n") ++ p)) ++ str "\n\n") ++ rest) =
      h :: s :: p :: [] :: splitNl rest := by
  have he : ((((h ++ str "\n") ++ ((s ++ str "\n") ++ p)) ++ str "\n\n") ++ rest) =
      (h ++ str "\n") ++ ((s ++ str "\n") ++ ((p ++ str "\n\n") ++ rest)) := by
    simp [List.append_assoc]
  rw [he, splitNl_line_sep1 _ _ hh, splitNl_line_sep1 _ _ hs, splitNl_line_sep2 _ _ hp]

lemma splitNl_section_last (h s p : Str)
    (hh : ∀ c ∈ h, c ≠ '\n') (hs : ∀ c ∈ s, c ≠ '\n') (hp : ∀ c ∈ p, c ≠ '\n') :
    splitNl ((h ++ str "\n") ++ ((s ++ str "\n") ++ p)) = [h, s, p] := by
  rw [splitNl_line_sep1 _ _ hh, splitNl_line_sep1 _ _ hs, splitNl_nlfree hp]

lemma nlFree_append {a b : Str} (ha : ∀ c ∈ a, c ≠ '\n') (hb : ∀ c ∈ b, c ≠ '\n') :
    ∀ c ∈ a ++ b, c ≠ '\n' := by
  intro c hc
  rcases List.mem_append.mp hc with h | h
  · exact ha c h
  · exact hb c h

lemma nlFree_joinSep {sep : Str} {l : List Str} (hs : ∀ c ∈ sep, c ≠ '\n')
    (hl : ∀ x ∈ l, ∀ c ∈ x, c ≠ '\n') : ∀ c ∈ joinSep sep l, c ≠ '\n' := by
  intro c hc
  rcases mem_joinSep sep l hc with h | ⟨x, hx, hcx⟩
  · exact hs c h
  · exact hl x hx c hcx

lemma nlFree_sanitize {kws : List Str} (h : ∀ k ∈ kws, ∀ c ∈ k, c ≠ '\n') :
    ∀ k ∈ sanitizeKeywords kws, ∀ c ∈ k, c ≠ '\n' := by
  intro k hk c hc
  obtain ⟨_, s, hs, he⟩ := sanitize_mem kws k hk
  exact h s hs c (mem_strip (he ▸ hc))

lemma nlFree_scatter {kps : Nat} {ksec : List Str} (h : ∀ k ∈ ksec, ∀ c ∈ k, c ≠ '\n') :
    ∀ c ∈ scatterKeywords kps ksec, c ≠ '\n' := by
  unfold scatterKeywords
  by_cases hk : ksec = []
  · rw [if_pos hk]; decide
  · rw [if_neg hk]
    exact nlFree_joinSep (by decide) (fun x hx => h x (List.take_subset _ _ hx))

lemma nlFree_pyOr {o : Option Str} {d : Str} (ho : ∀ s, o = some s → ∀ c ∈ s, c ≠ '\n')
    (hd : ∀ c ∈ d, c ≠ '\n') : ∀ c ∈ pyOr o d, c ≠ '\n' := by
  cases o with
  | none => exact hd
  | some t =>
    simp only [pyOr]
    by_cases ht : t = []
    · rw [if_pos ht]; exact hd
    · rw [if_neg ht]; exact ho t rfl

lemma nlFree_pyNonempty {s d : Str} (hs : ∀ c ∈ s, c ≠ '\n') (hd : ∀ c ∈ d, c ≠ '\n') :
    ∀ c ∈ pyNonempty s d, c ≠ '\n' := by
  unfold pyNonempty
  by_cases h : s = []
  · rw [if_pos h]; exact hd
  · rw [if_neg h]; exact hs

lemma chunk_subset (kps i : Nat) (ks : List Str) :
    keywordsForSection kps ks i ⊆ ks := by
  intro k hk
  unfold keywordsForSection at hk
  by_cases h : (ks.drop (i * kps)).take kps = []
  · rw [if_pos h] at hk
    exact List.take_subset _ _ hk
  · rw [if_neg h] at hk
    exact List.drop_subset _ _ (List.take_subset _ _ hk)

lemma cons1_ne {a c : Char} {t u : Str} (h : a ≠ c) : (a :: t) ≠ (c :: u) := by
  intro he
  injection he with h1 _
  exact h h1

lemma cons2_ne {a b c d : Char} {t u : Str} (h : b ≠ d) : (a :: b :: t) ≠ (c :: d :: u) := by
  intro he
  injection he with _ h2
  injection h2 with h3 _
  exact h h3

lemma cons3_ne {a b c d e f : Char} {t u : Str} (h : c ≠ f) :
    (a :: b :: c :: t) ≠ (d :: e :: f :: u) := by
  intro he
  injection he with _ h2
  injection h2 with _ h3
  injection h3 with h4 _
  exact h h4

lemma not_heading_of_first {a : Char} {t : Str} (h : a ≠ '#') : (a :: t) ∉ headingStrings := by
  intro hm
  simp only [headingStrings, List.mem_cons, List.not_mem_nil, or_false] at hm
  rcases hm with hm | hm | hm | hm <;> exact cons1_ne h hm

lemma not_heading_of_second {a b : Char} {t : Str} (h : b ≠ '#') :
    (a :: b :: t) ∉ headingStrings := by
  intro hm
  simp only [headingStrings, List.mem_cons, List.not_mem_nil, or_false] at hm
  rcases hm with hm | hm | hm | hm <;> exact cons2_ne h hm

lemma not_heading_of_third {a b c : Char} {t : Str} (h : c ≠ ' ') :
    (a :: b :: c :: t) ∉ headingStrings := by
  intro hm
  simp only [headingStrings, List.mem_cons, List.not_mem_nil, or_false] at hm
  rcases hm with hm | hm | hm | hm <;> exact cons3_ne h hm

lemma filter_heading_cons_mem {x : Str} (rest : List Str) (h : x ∈ headingStrings) :
    (x :: rest).filter isHeading = x :: rest.filter isHeading := by
  rw [List.filter_cons, if_pos]
  exact decide_eq_true h

lemma filter_heading_cons_not_mem {x : Str} (rest : List Str) (h : x ∉ headingStrings) :
    (x :: rest).filter isHeading = rest.filter isHeading := by
  rw [List.filter_cons, if_neg]
  simp only [isHeading]
  exact fun hc => h (of_decide_eq_true hc)

lemma filter_heading_sections (a1 a3 s0 p0 s1 p1 s2 p2 s3 p3 : Str)
    (h1 : a1 ∉ headingStrings) (h3 : a3 ∉ headingStrings)
    (hs0 : s0 ∉ headingStrings) (hp0 : p0 ∉ headingStrings)
    (hs1 : s1 ∉ headingStrings) (hp1 : p1 ∉ headingStrings)
    (hs2 : s2 ∉ headingStrings) (hp2 : p2 ∉ headingStrings)
    (hs3 : s3 ∉ headingStrings) (hp3 : p3 ∉ headingStrings) :
    List.filter isHeading
      [a1, [], a3, [], str "- 구성: 서론 → 문제 제기 → 정보 제공 → 정리", [],
       str "## 서론", s0, p0, [],
       str "## 문제 제기", s1, p1, [],
       str "## 정보 제공", s2, p2, [],
       str "## 정리", s3, p3] = headingStrings := by
  have hnil : ([] : Str) ∉ headingStrings := by decide
  have hg : str "- 구성: 서론 → 문제 제기 → 정보 제공 → 정리" ∉ headingStrings := by decide
  have hm0 : str "## 서론" ∈ headingStrings := by decide
  have hm1 : str "## 문제 제기" ∈ headingStrings := by decide
  have hm2 : str "## 정보 제공" ∈ headingStrings := by decide
  have hm3 : str "## 정리" ∈ headingStrings := by decide
  rw [filter_heading_cons_not_mem _ h1,
      filter_heading_cons_not_mem _ hnil,
      filter_heading_cons_not_mem _ h3,
      filter_heading_cons_not_mem _ hnil,
      filter_heading_cons_not_mem _ hg,
      filter_heading_cons_not_mem _ hnil,
      filter_heading_cons_mem _ hm0,
      filter_heading_cons_not_mem _ hs0,
      filter_heading_cons_not_mem _ hp0,
      filter_heading_cons_not_mem _ hnil,
      filter_heading_cons_mem _ hm1,
      filter_heading_cons_not_mem _ hs1,
      filter_heading_cons_not_mem _ hp1,
      filter_heading_cons_not_mem _ hnil,
      filter_heading_cons_mem _ hm2,
      filter_heading_cons_not_mem _ hs2,
      filter_heading_cons_not_mem _ hp2,
      filter_heading_cons_not_mem _ hnil,
      filter_heading_cons_mem _ hm3,
      filter_heading_cons_not_mem _ hs3,
      filter_heading_cons_not_mem _ hp3,
      List.filter_nil]
  rfl

/-- C1 (amended): the composed post is always non-empty (for every input),
and — for inputs whose strings contain no newline character — its
section-heading lines are exactly the four fixed headings, in the fixed
order. -/
theorem generate_headings (kps : Nat) (title : Str) (kws : List Str) (cs : CommentSummary) :
    generate kps title kws cs ≠ [] ∧
    ((∀ c ∈ title, c ≠ '\n') →
     (∀ k ∈ kws, ∀ c ∈ k, c ≠ '\n') →
     (∀ x ∈ cs.highlights, ∀ c ∈ x, c ≠ '\n') →
     (∀ x ∈ cs.pain_points, ∀ c ∈ x, c ≠ '\n') →
     (∀ x ∈ cs.wishes, ∀ c ∈ x, c ≠ '\n') →
     (∀ s, cs.tone = some s → ∀ c ∈ s, c ≠ '\n') →
     headingLines (generate kps title kws cs) = headingStrings) := by
  constructor
  · rw [generate_unfold]
    intro hg
    rcases List.append_eq_nil.mp hg with ⟨hg1, _⟩
    rcases List.append_eq_nil.mp hg1 with ⟨hg2, _⟩
    rcases List.append_eq_nil.mp hg2 with ⟨hg3, _⟩
    exact absurd hg3 (by decide)
  intro ht hkw hhi hpa hwi htone
  have hks : ∀ k ∈ sanitizeKeywords kws, ∀ c ∈ k, c ≠ '\n' := nlFree_sanitize hkw
  have hsc : ∀ i : Nat,
      ∀ c ∈ scatterKeywords kps (keywordsForSection kps (sanitizeKeywords kws) i), c ≠ '\n' :=
    fun i => nlFree_scatter (fun k hk => hks k (chunk_subset kps i (sanitizeKeywords kws) hk))
  have htoneHint : ∀ c ∈ pyOr cs.tone (str "독자 의견"), c ≠ '\n' :=
    nlFree_pyOr htone (by decide)
  have htone2 : ∀ c ∈ pyOr cs.tone (str "긍정적"), c ≠ '\n' :=
    nlFree_pyOr htone (by decide)
  have hpaT : ∀ c ∈ pyNonempty (joinSep (str ", ") (cs.pain_points.take 2))
      (str "해결이 필요한 문제"), c ≠ '\n' :=
    nlFree_pyNonempty
      (nlFree_joinSep (by decide) (fun x hx => hpa x (List.take_subset _ _ hx))) (by decide)
  have hhiT : ∀ c ∈ pyNonempty (joinSep (str ", ") (cs.highlights.take 2))
      (str "주목 받은 의견"), c ≠ '\n' :=
    nlFree_pyNonempty
      (nlFree_joinSep (by decide) (fun x hx => hhi x (List.take_subset _ _ hx))) (by decide)
  have hwiT : ∀ c ∈ pyNonempty (joinSep (str ", ") (cs.wishes.take 2))
      (str "독자가 바라는 방향"), c ≠ '\n' :=
    nlFree_pyNonempty
      (nlFree_joinSep (by decide) (fun x hx => hwi x (List.take_subset _ _ hx))) (by decide)
  have hA0 : ∀ c ∈ str "# " ++ title, c ≠ '\n' := nlFree_append (by decide) ht
  have hA1 : ∀ c ∈ str "- 주제 키워드: " ++
      (if sanitizeKeywords kws = [] then str "핵심 포인트"
       else joinSep (str ", ") ((sanitizeKeywords kws).take 3)), c ≠ '\n' := by
    refine nlFree_append (by decide) ?_
    by_cases h : sanitizeKeywords kws = []
    · rw [if_pos h]; decide
    · rw [if_neg h]
      exact nlFree_joinSep (by decide) (fun x hx => hks x (List.take_subset _ _ hx))
  unfold headingLines
  rw [generate_unfold]
  simp only [buildSection_unfold, buildSubheading_intro_eq, buildSubheading_problem_eq,
    buildSubheading_info_eq, buildSubheading_wrap_eq, buildParagraph_intro_eq,
    buildParagraph_problem_eq, buildParagraph_info_eq, buildParagraph_wrap_eq]
  rw [splitNl_line_sep2 _ _ hA0, splitNl_line_sep2 _ _ hA1,
      splitNl_line_sep2 _ _ (by decide),
      splitNl_section_sep2 _ _ _ _ (by decide)
        (nlFree_append (by decide) (nlFree_append ht (by decide)))
        (nlFree_append (nlFree_append (by decide) (hsc 0)) (by decide)),
      splitNl_section_sep2 _ _ _ _ (by decide)
        (nlFree_append (by decide) (nlFree_append htoneHint (by decide)))
        (nlFree_append (nlFree_append (nlFree_append (nlFree_append (by decide) hpaT)
          (by decide)) (hsc 1)) (by decide)),
      splitNl_section_sep2 _ _ _ _ (by decide) (by decide)
        (nlFree_append (nlFree_append (nlFree_append (nlFree_append (nlFree_append
          (nlFree_append (by decide) hhiT) (by decide)) hwiT) (by decide)) (hsc 2))
          (by decide)),
      splitNl_section_last _ _ _ (by decide) (by decide)
        (nlFree_append (nlFree_append (nlFree_append (nlFree_append (by decide) (hsc 3))
          (by decide)) htone2) (by decide))]
  exact filter_heading_sections _ _ _ _ _ _ _ _ _ _
    (not_heading_of_second (by decide)) (not_heading_of_first (by decide))
    (not_heading_of_third (by decide)) (not_heading_of_first (by decide))
    (not_heading_of_third (by decide)) (not_heading_of_first (by decide))
    (not_heading_of_third (by decide)) (not_heading_of_first (by decide))
    (not_heading_of_third (by decide)) (not_heading_of_first (by decide))

/-- Witness for C1 at a concrete newline-free title, keyword list and
insight. -/
theorem generate_headings_witness :
    headingLines (generate 2 (str "가나다") [str "키워드"] ⟨[], [], [], none⟩) =
      headingStrings :=
  (generate_headings 2 (str "가나다") [str "키워드"] ⟨[], [], [], none⟩).2 (by decide)
    (by decide) (by decide) (by decide) (by decide) (fun s hs => nomatch hs)

/-- Counterexample for C1 as stated: a title containing a line break followed
by a heading marker yields five section-heading lines, not exactly four. -/
theorem generate_headings_claim_cex :
    (headingLines (generate 2 (str "x\n## 서론") [] ⟨[], [], [], none⟩)).length = 5 ∧
    headingLines (generate 2 (str "x\n## 서론") [] ⟨[], [], [], none⟩) ≠ headingStrings := by
  decide

/-! Substring freedom of the composed post (claim C8). -/

lemma infix_append_cases {p a b : Str} (h : p <:+: a ++ b) :
    p <:+: a ∨ p <:+: b ∨
      ∃ p1 p2, p = p1 ++ p2 ∧ p1 ≠ [] ∧ p2 ≠ [] ∧ p1 <:+ a ∧ p2 <+: b := by
  obtain ⟨s, t, hst⟩ := h
  rcases List.append_eq_append_iff.mp hst with ⟨a', ha, _⟩ | ⟨c', hc, hd⟩
  · exact Or.inl ⟨s, a', ha.symm⟩
  · rcases List.append_eq_append_iff.mp hc with ⟨w, ha2, hp2⟩ | ⟨w, _, hc2⟩
    · by_cases hw : w = []
      · subst hw
        rw [List.nil_append] at hp2
        refine Or.inr (Or.inl ⟨[], t, ?_⟩)
        rw [List.nil_append, hp2]
        exact hd.symm
      · by_cases hc' : c' = []
        · subst hc'
          rw [List.append_nil] at hp2
          refine Or.inl ⟨s, [], ?_⟩
          rw [List.append_nil, hp2]
          exact ha2.symm
        · exact Or.inr (Or.inr ⟨w, c', hp2, hw, hc', ⟨s, ha2.symm⟩, ⟨t, hd.symm⟩⟩)
    · refine Or.inr (Or.inl ⟨w, t, ?_⟩)
      rw [hd, hc2]

lemma head_cond {p b : Str} {x : Char} (hb : b.head? = some x) (hx : x ∉ p) :
    ∀ c, b.head? = some c → c ∉ p := by
  intro c hc
  rw [hb] at hc
  injection hc with h
  exact h ▸ hx

lemma last_cond {p a : Str} {x : Char} (ha : a.getLast? = some x) (hx : x ∉ p) :
    ∀ c, a.getLast? = some c → c ∉ p := by
  intro c hc
  rw [ha] at hc
  injection hc with h
  exact h ▸ hx

lemma not_infix_append_left {p a b : Str} (ha : ¬ p <:+: a) (hb : ¬ p <:+: b)
    (hhead : ∀ c, b.head? = some c → c ∉ p) : ¬ p <:+: a ++ b := by
  intro h
  rcases infix_append_cases h with h | h | ⟨p1, p2, hp, _, hp2, _, hpre⟩
  · exact ha h
  · exact hb h
  · obtain ⟨r, hr⟩ := hpre
    cases p2 with
    | nil => exact hp2 rfl
    | cons c p2' =>
      refine hhead c (by rw [← hr]; rfl) ?_
      rw [hp]
      exact List.mem_append_right p1 (List.mem_cons_self c p2')

lemma not_infix_append_right {p a b : Str} (ha : ¬ p <:+: a) (hb : ¬ p <:+: b)
    (hlast : ∀ c, a.getLast? = some c → c ∉ p) : ¬ p <:+: a ++ b := by
  intro h
  rcases infix_append_cases h with h | h | ⟨p1, p2, hp, hp1, _, hsuf, _⟩
  · exact ha h
  · exact hb h
  · obtain ⟨r, hr⟩ := hsuf
    rcases List.eq_nil_or_concat p1 with h0 | ⟨p1', c, hcat⟩
    · exact hp1 h0
    · rw [List.concat_eq_append] at hcat
      refine hlast c ?_ ?_
      · rw [← hr, hcat, ← List.append_assoc]
        exact List.getLast?_concat _
      · rw [hp, hcat]
        exact List.mem_append_left p2
          (List.mem_append_right p1' (List.mem_cons_self c []))

lemma getLast?_append_right {l₁ l₂ : Str} (h : l₂ ≠ []) :
    (l₁ ++ l₂).getLast? = l₂.getLast? := by
  rw [← List.head?_reverse, ← List.head?_reverse, List.reverse_append]
  cases hrev : l₂.reverse with
  | nil => exact absurd (by simpa using hrev) h
  | cons c t => rfl

lemma not_infix_nil_pattern {p : Str} (hp : p ≠ []) : ¬ p <:+: [] :=
  fun h => hp (List.infix_nil.mp h)

lemma not_infix_joinSep (p sep : Str) (l : List Str) (hp : p ≠ [])
    (hsep_ne : sep ≠ []) (hsep : ¬ p <:+: sep)
    (hhd : ∀ c, sep.head? = some c → c ∉ p)
    (hlast : ∀ c, sep.getLast? = some c → c ∉ p)
    (hl : ∀ x ∈ l, ¬ p <:+: x) : ¬ p <:+: joinSep sep l := by
  induction l with
  | nil => exact not_infix_nil_pattern hp
  | cons x rest ih =>
    cases rest with
    | nil => exact hl x (List.mem_cons_self x [])
    | cons y r =>
      rw [joinSep_cons_cons]
      refine not_infix_append_right
        (not_infix_append_left (hl x (List.mem_cons_self x (y :: r))) hsep hhd)
        (ih (fun z hz => hl z (List.mem_cons_of_mem x hz))) ?_
      intro c hc
      rw [getLast?_append_right hsep_ne] at hc
      exact hlast c hc

lemma strip_isInfix (s : Str) : strip s <:+: s :=
  ((strip_prefix_dropWhile s).isInfix).trans ((List.dropWhile_suffix isSpace).isInfix)

lemma infix_appL {p a b : Str} (h : p <:+: b) : p <:+: a ++ b :=
  h.trans (List.suffix_append a b).isInfix

lemma infix_appR {p a b : Str} (h : p <:+: a) : p <:+: a ++ b :=
  h.trans (List.prefix_append a b).isInfix

lemma pyNonempty_nil_hi :
    pyNonempty (joinSep (str ", ") (emptyInsight.highlights.take 2)) (str "주목 받은 의견") =
      str "주목 받은 의견" := rfl

lemma pyNonempty_nil_pain :
    pyNonempty (joinSep (str ", ") (emptyInsight.pain_points.take 2)) (str "해결이 필요한 문제") =
      str "해결이 필요한 문제" := rfl

lemma pyNonempty_nil_wi :
    pyNonempty (joinSep (str ", ") (emptyInsight.wishes.take 2)) (str "독자가 바라는 방향") =
      str "독자가 바라는 방향" := rfl

lemma pyOr_none_tone1 : pyOr emptyInsight.tone (str "독자 의견") = str "독자 의견" := rfl

lemma pyOr_none_tone2 : pyOr emptyInsight.tone (str "긍정적") = str "긍정적" := rfl

lemma last_cond_append {p x y : Str} {c0 : Char} (hy : y ≠ [])
    (hg : y.getLast? = some c0) (hc0 : c0 ∉ p) :
    ∀ c, (x ++ y).getLast? = some c → c ∉ p := by
  intro c hc
  rw [getLast?_append_right hy, hg] at hc
  injection hc with h
  exact h ▸ hc0

lemma generate_empty_no_pattern (p : Str) (kps : Nat) (title : Str) (kws : List Str)
    (hp : p ≠ [])
    (hfix : ∀ b ∈ fixedBlocks, ¬ p <:+: b)
    (hbnd : ∀ x ∈ boundaryChars, x ∉ p)
    (htitle : ¬ p <:+: title)
    (hkw : ∀ k ∈ kws, ¬ p <:+: k) :
    ¬ p <:+: generate kps title kws emptyInsight := by
  have hks : ∀ k ∈ sanitizeKeywords kws, ¬ p <:+: k := by
    intro k hk hinf
    obtain ⟨_, s, hs, he⟩ := sanitize_mem kws k hk
    exact hkw s hs ((he ▸ hinf).trans (strip_isInfix s))
  have hsc : ∀ i : Nat,
      ¬ p <:+: scatterKeywords kps (keywordsForSection kps (sanitizeKeywords kws) i) := by
    intro i
    unfold scatterKeywords
    by_cases h : keywordsForSection kps (sanitizeKeywords kws) i = []
    · rw [if_pos h]; exact hfix _ (by decide)
    · rw [if_neg h]
      exact not_infix_joinSep p (str "와 ") _ hp (by decide) (hfix _ (by decide))
        (head_cond rfl (hbnd '와' (by decide))) (last_cond rfl (hbnd ' ' (by decide)))
        (fun x hx => hks x (chunk_subset kps i _ (List.take_subset _ _ hx)))
  have hseo : ¬ p <:+:
      (if sanitizeKeywords kws = [] then str "핵심 포인트"
       else joinSep (str ", ") ((sanitizeKeywords kws).take 3)) := by
    by_cases h : sanitizeKeywords kws = []
    · rw [if_pos h]; exact hfix _ (by decide)
    · rw [if_neg h]
      exact not_infix_joinSep p (str ", ") _ hp (by decide) (hfix _ (by decide))
        (head_cond rfl (hbnd ',' (by decide))) (last_cond rfl (hbnd ' ' (by decide)))
        (fun x hx => hks x (List.take_subset _ _ hx))
  rw [generate_unfold]
  simp only [buildSection_unfold, buildSubheading_intro_eq, buildSubheading_problem_eq,
    buildSubheading_info_eq, buildSubheading_wrap_eq, buildParagraph_intro_eq,
    buildParagraph_problem_eq, buildParagraph_info_eq, buildParagraph_wrap_eq,
    pyNonempty_nil_hi, pyNonempty_nil_pain, pyNonempty_nil_wi,
    pyOr_none_tone1, pyOr_none_tone2]
  refine not_infix_append_left ?_ ?_ (head_cond rfl (hbnd '-' (by decide)))
  · -- block "# <title>" with its separator
    refine not_infix_append_left ?_ (hfix _ (by decide)) (head_cond rfl (hbnd '\n' (by decide)))
    exact not_infix_append_right (hfix _ (by decide)) htitle
      (last_cond rfl (hbnd ' ' (by decide)))
  refine not_infix_append_left ?_ ?_ (head_cond rfl (hbnd '-' (by decide)))
  · -- keyword-hint line
    refine not_infix_append_left ?_ (hfix _ (by decide)) (head_cond rfl (hbnd '\n' (by decide)))
    exact not_infix_append_right (hfix _ (by decide)) hseo
      (last_cond rfl (hbnd ' ' (by decide)))
  refine not_infix_append_left ?_ ?_ (head_cond rfl (hbnd '#' (by decide)))
  · -- outline structure line
    exact not_infix_append_left (hfix _ (by decide)) (hfix _ (by decide))
      (head_cond rfl (hbnd '\n' (by decide)))
  refine not_infix_append_left ?_ ?_ (head_cond rfl (hbnd '#' (by decide)))
  · -- introduction section block with its separator
    refine not_infix_append_left ?_ (hfix _ (by decide))
      (head_cond rfl (hbnd '\n' (by decide)))
    refine not_infix_append_left ?_ ?_ (head_cond rfl (hbnd '#' (by decide)))
    · exact not_infix_append_left (hfix _ (by decide)) (hfix _ (by decide))
        (head_cond rfl (hbnd '\n' (by decide)))
    refine not_infix_append_left ?_ ?_ (head_cond rfl (hbnd '읽' (by decide)))
    · refine not_infix_append_left ?_ (hfix _ (by decide))
        (head_cond rfl (hbnd '\n' (by decide)))
      refine not_infix_append_right (hfix _ (by decide)) ?_
        (last_cond rfl (hbnd ' ' (by decide)))
      exact not_infix_append_left htitle (hfix _ (by decide))
        (head_cond rfl (hbnd '를' (by decide)))
    exact not_infix_append_left
      (not_infix_append_right (hfix _ (by decide)) (hsc 0)
        (last_cond rfl (hbnd ' ' (by decide))))
      (hfix _ (by decide)) (head_cond rfl (hbnd '를' (by decide)))
  refine not_infix_append_left ?_ ?_ (head_cond rfl (hbnd '#' (by decide)))
  · -- problem-framing section block with its separator
    refine not_infix_append_left ?_ (hfix _ (by decide))
      (head_cond rfl (hbnd '\n' (by decide)))
    refine not_infix_append_left ?_ ?_ (head_cond rfl (hbnd '#' (by decide)))
    · exact not_infix_append_left (hfix _ (by decide)) (hfix _ (by decide))
        (head_cond rfl (hbnd '\n' (by decide)))
    refine not_infix_append_left ?_ ?_ (head_cond rfl (hbnd '댓' (by decide)))
    · refine not_infix_append_left ?_ (hfix _ (by decide))
        (head_cond rfl (hbnd '\n' (by decide)))
      exact not_infix_append_right (hfix _ (by decide)) (hfix _ (by decide))
        (last_cond rfl (hbnd ' ' (by decide)))
    exact not_infix_append_left
      (not_infix_append_right (hfix _ (by decide)) (hsc 1)
        (last_cond rfl (hbnd ' ' (by decide))))
      (hfix _ (by decide)) (head_cond rfl (hbnd '를' (by decide)))
  refine not_infix_append_left ?_ ?_ (head_cond rfl (hbnd '#' (by decide)))
  · -- informative section block with its separator
    refine not_infix_append_left ?_ (hfix _ (by decide))
      (head_cond rfl (hbnd '\n' (by decide)))
    refine not_infix_append_left ?_ ?_ (head_cond rfl (hbnd '#' (by decide)))
    · exact not_infix_append_left (hfix _ (by decide)) (hfix _ (by decide))
        (head_cond rfl (hbnd '\n' (by decide)))
    refine not_infix_append_left ?_ ?_ (head_cond rfl (hbnd '실' (by decide)))
    · refine not_infix_append_left ?_ (hfix _ (by decide))
        (head_cond rfl (hbnd '\n' (by decide)))
      exact not_infix_append_right (hfix _ (by decide)) (hfix _ (by decide))
        (last_cond rfl (hbnd ' ' (by decide)))
    exact not_infix_append_left
      (not_infix_append_right (hfix _ (by decide)) (hsc 2)
        (last_cond rfl (hbnd ' ' (by decide))))
      (hfix _ (by decide)) (head_cond rfl (hbnd '는' (by decide)))
  -- wrap-up section block, last in the document
  refine not_infix_append_left ?_ ?_ (head_cond rfl (hbnd '#' (by decide)))
  · exact not_infix_append_left (hfix _ (by decide)) (hfix _ (by decide))
      (head_cond rfl (hbnd '\n' (by decide)))
  refine not_infix_append_left ?_ ?_ (head_cond rfl (hbnd '앞' (by decide)))
  · refine not_infix_append_left ?_ (hfix _ (by decide))
      (head_cond rfl (hbnd '\n' (by decide)))
    exact not_infix_append_right (hfix _ (by decide)) (hfix _ (by decide))
      (last_cond rfl (hbnd ' ' (by decide)))
  refine not_infix_append_right ?_ (hfix _ (by decide))
    (last_cond_append (by decide) rfl (hbnd '적' (by decide)))
  refine not_infix_append_left ?_ (hfix _ (by decide))
    (head_cond rfl (hbnd '긍' (by decide)))
  refine not_infix_append_left ?_ (hfix _ (by decide))
    (head_cond rfl (hbnd '를' (by decide)))
  exact not_infix_append_right (hfix _ (by decide)) (hsc 3)
    (last_cond rfl (hbnd ' ' (by decide)))

lemma infix_assoc {p x y z : Str} (h : p <:+: x ++ (y ++ z)) : p <:+: (x ++ y) ++ z := by
  rw [List.append_assoc]
  exact h

set_option maxRecDepth 16384

/-- C8 (amended): with an entirely empty comment insight, every quoted
insight slot and the tone slot carries its fixed placeholder phrase, and —
provided the title and the keywords contain neither an adjacent quote pair
nor the text `None` — the output contains no empty quoted field and no
literal `None`. -/
theorem generate_empty_insight_spec (kps : Nat) (title : Str) (kws : List Str) :
    str "\x27해결이 필요한 문제\x27" <:+: generate kps title kws emptyInsight ∧
    str "\x27주목 받은 의견\x27" <:+: generate kps title kws emptyInsight ∧
    str "\x27독자가 바라는 방향\x27" <:+: generate kps title kws emptyInsight ∧
    str "독자 의견 속에서 드러난 고민" <:+: generate kps title kws emptyInsight ∧
    str "\x27긍정적\x27" <:+: generate kps title kws emptyInsight ∧
    ((¬ str "\x27\x27" <:+: title) → (∀ k ∈ kws, ¬ str "\x27\x27" <:+: k) →
      ¬ str "\x27\x27" <:+: generate kps title kws emptyInsight) ∧
    ((¬ str "None" <:+: title) → (∀ k ∈ kws, ¬ str "None" <:+: k) →
      ¬ str "None" <:+: generate kps title kws emptyInsight) := by
  refine ⟨?_, ?_, ?_, ?_, ?_, ?_, ?_⟩
  · rw [generate_unfold]
    simp only [buildSection_unfold, buildSubheading_intro_eq, buildSubheading_problem_eq,
      buildSubheading_info_eq, buildSubheading_wrap_eq, buildParagraph_intro_eq,
      buildParagraph_problem_eq, buildParagraph_info_eq, buildParagraph_wrap_eq,
      pyNonempty_nil_hi, pyNonempty_nil_pain, pyNonempty_nil_wi,
      pyOr_none_tone1, pyOr_none_tone2]
    exact infix_appL (infix_appL (infix_appL (infix_appL (infix_appR (infix_appR
      (infix_appL (infix_appL (infix_appR (infix_appR (by decide))))))))))
  · rw [generate_unfold]
    simp only [buildSection_unfold, buildSubheading_intro_eq, buildSubheading_problem_eq,
      buildSubheading_info_eq, buildSubheading_wrap_eq, buildParagraph_intro_eq,
      buildParagraph_problem_eq, buildParagraph_info_eq, buildParagraph_wrap_eq,
      pyNonempty_nil_hi, pyNonempty_nil_pain, pyNonempty_nil_wi,
      pyOr_none_tone1, pyOr_none_tone2]
    exact infix_appL (infix_appL (infix_appL (infix_appL (infix_appL (infix_appR
      (infix_appR (infix_appL (infix_appL (infix_appR (infix_appR (by decide)))))))))))
  · rw [generate_unfold]
    simp only [buildSection_unfold, buildSubheading_intro_eq, buildSubheading_problem_eq,
      buildSubheading_info_eq, buildSubheading_wrap_eq, buildParagraph_intro_eq,
      buildParagraph_problem_eq, buildParagraph_info_eq, buildParagraph_wrap_eq,
      pyNonempty_nil_hi, pyNonempty_nil_pain, pyNonempty_nil_wi,
      pyOr_none_tone1, pyOr_none_tone2]
    exact infix_appL (infix_appL (infix_appL (infix_appL (infix_appL (infix_appR
      (infix_appR (infix_appL (infix_appL (infix_appR (infix_appR (by decide)))))))))))
  · rw [generate_unfold]
    simp only [buildSection_unfold, buildSubheading_intro_eq, buildSubheading_problem_eq,
      buildSubheading_info_eq, buildSubheading_wrap_eq, buildParagraph_intro_eq,
      buildParagraph_problem_eq, buildParagraph_info_eq, buildParagraph_wrap_eq,
      pyNonempty_nil_hi, pyNonempty_nil_pain, pyNonempty_nil_wi,
      pyOr_none_tone1, pyOr_none_tone2]
    exact infix_appL (infix_appL (infix_appL (infix_appL (infix_appR (infix_appR
      (infix_appL (infix_appR (infix_appR (infix_appL (by decide))))))))))
  · rw [generate_unfold]
    simp only [buildSection_unfold, buildSubheading_intro_eq, buildSubheading_problem_eq,
      buildSubheading_info_eq, buildSubheading_wrap_eq, buildParagraph_intro_eq,
      buildParagraph_problem_eq, buildParagraph_info_eq, buildParagraph_wrap_eq,
      pyNonempty_nil_hi, pyNonempty_nil_pain, pyNonempty_nil_wi,
      pyOr_none_tone1, pyOr_none_tone2]
    exact infix_appL (infix_appL (infix_appL (infix_appL (infix_appL (infix_appL
      (infix_appL (infix_appL (infix_assoc (infix_assoc (infix_appL (by decide)))))))))))
  · intro hqt hqk
    exact generate_empty_no_pattern _ kps title kws (by decide) (by decide) (by decide)
      hqt hqk
  · intro hnt hnk
    exact generate_empty_no_pattern _ kps title kws (by decide) (by decide) (by decide)
      hnt hnk

/-- Witness for C8 at a concrete title and keyword list free of quote pairs
and of the text None. -/
theorem generate_empty_insight_spec_witness :
    (str "\x27해결이 필요한 문제\x27" <:+: generate 2 (str "가나다라") [str "키워드"] emptyInsight) ∧
    ¬ str "None" <:+: generate 2 (str "가나다라") [str "키워드"] emptyInsight :=
  ⟨(generate_empty_insight_spec 2 (str "가나다라") [str "키워드"]).1,
   (generate_empty_insight_spec 2 (str "가나다라") [str "키워드"]).2.2.2.2.2.2
     (by decide) (by decide)⟩

/-- Counterexample for C8 as stated: with an entirely empty insight but a
title equal to None, the output does contain the literal text None. -/
theorem generate_empty_insight_claim_cex :
    str "None" <:+: generate 2 (str "None") [] emptyInsight := by
  decide
